import Mathlib

/-!
# Verification of the manifest transformation engine

Shallow embedding of `crates/build/src/workspace/manifest.rs` from the
`cargo-contract` repository: the in-memory TOML document model, the
mutation operations on a `Manifest`, and the `PathRewrite` pass.

Modelling conventions:
* `toml::value::Value` becomes the inductive `Value`; the `Float` and
  `Datetime` variants are omitted because no operation in scope inspects
  them (they would only ever flow through untouched, like `bool`/`int`).
* `toml::value::Table` (a string-keyed map) becomes an association list
  `Table` with first-match lookup and replace-in-place-or-append insert,
  matching the map semantics the code relies on (lookup, `entry`,
  in-place update through mutable references).
* Rust functions mutating `&mut self` become functions returning the new
  table; `anyhow` errors become `Except String` with the source's error
  message strings.
* Filesystem facts (`Path::exists`, platform path syntax) are inputs of
  the `PathRewrite` context: `fs_exists` models `PathBuf::exists`
  (checked against the process working directory, as in the source) and
  `OsPathRules` models the platform's separator and `Path::is_relative`.
-/

namespace ManifestSpec

/-- TOML value tree, mirroring `toml::value::Value`. -/
inductive Value where
  | str : String → Value
  | bool : Bool → Value
  | int : Int → Value
  | array : List Value → Value
  | table : List (String × Value) → Value

/-- `toml::value::Table`: a string-keyed map, as an association list. -/
abbrev Table := List (String × Value)

/-- Map lookup (`Table::get`): first entry with the given key. -/
def Table.get : Table → String → Option Value
  | [], _ => none
  | (k, v) :: rest, key => if k == key then some v else Table.get rest key

/-- Map insert: replace the value in place when the key is present
(keeping its position, as both `BTreeMap` and `IndexMap` do), otherwise
append the new entry. -/
def Table.insert : Table → String → Value → Table
  | [], key, v => [(key, v)]
  | (k, w) :: rest, key, v =>
    if k == key then (k, v) :: rest else (k, w) :: Table.insert rest key v

/-- `Value::as_str`. -/
def Value.as_str : Value → Option String
  | .str s => some s
  | _ => none

/-- `Value::as_table` (here returning the underlying entry list). -/
def Value.as_table : Value → Option Table
  | .table t => some t
  | _ => none

/-- `Value::get` with a string index: table lookup, `none` on any
non-table value. -/
def Value.get (v : Value) (key : String) : Option Value :=
  match v with
  | .table t => Table.get t key
  | _ => none

/-- Equality test of a `Value` against `Value::String s`, as used by
`members.contains(&path.into())`: `toml::Value`'s `PartialEq` makes a
string value equal only to a string value with the same content. -/
def value_eq_str (v : Value) (s : String) : Bool :=
  match v with
  | .str t => t == s
  | _ => false

def MANIFEST_FILE : String := "Cargo.toml"
def LEGACY_METADATA_PACKAGE_PATH : String := ".ink/abi_gen"
def METADATA_PACKAGE_PATH : String := ".ink/metadata_gen"

/-- `crate_type_exists` (manifest.rs, bottom): is some element of the
array a string equal to `crate_type`? -/
def crate_type_exists (crate_type : String) (crate_types : List Value) : Bool :=
  crate_types.any fun v => ((Value.as_str v).map (fun s => s == crate_type)).getD false

/-- Navigation of `Manifest::get_crate_types_mut`: `toml["lib"]["crate-type"]`
as an array, with the source's three error messages.  (The `&mut` access
is split here into this read and `set_crate_types` for the write-back.) -/
def get_crate_types (toml : Table) : Except String (List Value) :=
  match Table.get toml "lib" with
  | none => .error "lib section not found"
  | some lib =>
    match Value.get lib "crate-type" with
    | none => .error "crate-type section not found"
    | some ct =>
      match ct with
      | .array a => .ok a
      | _ => .error "crate-types should be an Array"

/-- Write-back half of the `get_crate_types_mut` mutable access: store a
new crate-type array back at `toml["lib"]["crate-type"]`.  Only
meaningful when `get_crate_types` succeeded, i.e. `lib` is a table. -/
def set_crate_types (toml : Table) (crate_types : List Value) : Table :=
  match Table.get toml "lib" with
  | some (.table lt) =>
    Table.insert toml "lib" (.table (Table.insert lt "crate-type" (.array crate_types)))
  | _ => toml

/-- `Manifest::with_added_crate_type`: append the kind to
`[lib] crate-type` if absent; does nothing when already present. -/
def with_added_crate_type (toml : Table) (crate_type : String) : Except String Table :=
  match get_crate_types toml with
  | .error e => .error e
  | .ok crate_types =>
    if crate_type_exists crate_type crate_types then .ok toml
    else .ok (set_crate_types toml (crate_types ++ [Value.str crate_type]))

/-- `Manifest::with_removed_crate_type`: when the kind is present,
retain only the values that are not the string `crate_type` (non-string
values are kept); when absent, do nothing. -/
def with_removed_crate_type (toml : Table) (crate_type : String) : Except String Table :=
  match get_crate_types toml with
  | .error e => .error e
  | .ok crate_types =>
    if crate_type_exists crate_type crate_types then
      .ok (set_crate_types toml
        (crate_types.filter fun v => ((Value.as_str v).map (fun s => s != crate_type)).getD true))
    else .ok toml

/-- Navigation of `Manifest::get_profile_release_table_mut` together
with a write-back of a new release table: `toml.entry("profile")`
defaulting to an empty table, then `.entry("release")` likewise, erroring
when either existing value is not a table. -/
def set_profile_release (toml : Table) (f : Table → Table) : Except String Table :=
  match (Table.get toml "profile").getD (.table []) with
  | .table pt =>
    match (Table.get pt "release").getD (.table []) with
    | .table rt =>
      .ok (Table.insert toml "profile" (.table (Table.insert pt "release" (.table (f rt)))))
    | _ => .error "release should be a table"
  | _ => .error "profile should be a table"

/-- `Manifest::with_profile_release_lto`: unconditionally set
`[profile.release] lto` (the `entry(..).or_insert(..)` followed by an
assignment amounts to an overwriting insert). -/
def with_profile_release_lto (toml : Table) (enabled : Bool) : Except String Table :=
  set_profile_release toml fun rt => Table.insert rt "lto" (.bool enabled)

/-- Modelled from the spec: `Profile::merge` lives in
`crates/build/src/workspace/mod.rs`, which is not part of the provided
sources; per the spec, "for each key in `defaults`, inserts it only if
the key is currently absent — existing user-set values always win".
`defaults` is the key/value list of the `Profile`'s settings. -/
def Profile.merge (defaults : List (String × Value)) (t : Table) : Table :=
  defaults.foldl
    (fun acc kv => if (Table.get acc kv.1).isSome then acc else Table.insert acc kv.1 kv.2) t

/-- `Manifest::with_profile_release_defaults`: merge the defaults into
`[profile.release]`, existing keys winning. -/
def with_profile_release_defaults (toml : Table) (defaults : List (String × Value)) :
    Except String Table :=
  set_profile_release toml fun rt => Profile.merge defaults rt

/-- `Manifest::with_workspace`: insert an empty `[workspace]` table only
when the key is vacant. -/
def with_workspace (toml : Table) : Except String Table :=
  if (Table.get toml "workspace").isSome then .ok toml
  else .ok (Table.insert toml "workspace" (.table []))

/-- `Manifest`: the document plus the `metadata_package` flag (the
`ManifestPath` field plays no role in the operations modelled here). -/
structure Manifest where
  toml : Table
  metadata_package : Bool

/-- `Manifest::with_metadata_package`: ensure `[workspace] members`
exists; when the legacy path is already a member only warn (no push),
otherwise push the new metadata package path; always set the
`metadata_package` flag. -/
def with_metadata_package (m : Manifest) : Except String Manifest :=
  match (Table.get m.toml "workspace").getD (.table []) with
  | .table wt =>
    match (Table.get wt "members").getD (.array []) with
    | .array members =>
      let members :=
        if members.any (fun v => value_eq_str v LEGACY_METADATA_PACKAGE_PATH) then members
        else members ++ [Value.str METADATA_PACKAGE_PATH]
      .ok { toml := Table.insert m.toml "workspace"
              (.table (Table.insert wt "members" (.array members))),
            metadata_package := true }
    | _ => .error "members should be an array"
  | _ => .error "workspace should be a table"

/-- The fixed dylint library descriptor table pushed by
`Manifest::with_dylint`. -/
def ink_dylint_descriptor : Value :=
  .table [("git", .str "https://github.com/paritytech/ink/"),
    ("tag", .str "v4.0.0-alpha.3"), ("pattern", .str "linting/")]

/-- `Manifest::with_dylint`: ensure the nested
`workspace.metadata.dylint.libraries` array exists (creating every
intermediate table as needed) and push the fixed descriptor, erroring
when an intermediate value exists with the wrong shape. -/
def with_dylint (toml : Table) : Except String Table :=
  match (Table.get toml "workspace").getD (.table []) with
  | .table wt =>
    match (Table.get wt "metadata").getD (.table []) with
    | .table mt =>
      match (Table.get mt "dylint").getD (.table []) with
      | .table dt =>
        match (Table.get dt "libraries").getD (.array []) with
        | .array libs =>
          .ok (Table.insert toml "workspace" (.table (Table.insert wt "metadata"
            (.table (Table.insert mt "dylint" (.table (Table.insert dt "libraries"
              (.array (libs ++ [ink_dylint_descriptor])))))))))
        | _ => .error "workspace.metadata.dylint.libraries section should be an array"
      | _ => .error "workspace.metadata.dylint section should be a table"
    | _ => .error "workspace.metadata section should be a table"
  | _ => .error "workspace section should be a table"

/-- The `[workspace] members` array of a document, when present. -/
def workspace_members (toml : Table) : Option (List Value) :=
  match Table.get toml "workspace" with
  | some (.table wt) =>
    match Table.get wt "members" with
    | some (.array ms) => some ms
    | _ => none
  | _ => none

/-- The `[lib] crate-type` array of a document, when present. -/
def lib_crate_types (toml : Table) : Option (List Value) :=
  match Table.get toml "lib" with
  | some (.table lt) =>
    match Table.get lt "crate-type" with
    | some (.array a) => some a
    | _ => none
  | _ => none

/-- The `[profile.release]` table of a document, when present. -/
def profile_release (toml : Table) : Option Table :=
  match Table.get toml "profile" with
  | some (.table pt) =>
    match Table.get pt "release" with
    | some (.table rt) => some rt
    | _ => none
  | _ => none

/-- Platform path conventions used by the rewrite pass: whether the
build is a Windows one (the `cfg(windows)` separator substitution),
the native separator character used by `PathBuf::join`, and
`Path::is_relative` on a path string. -/
structure OsPathRules where
  windows : Bool
  sep : Char
  is_relative : String → Bool

/-- Unix path rules: separator `/`, a path is relative iff it does not
start with `/`, no separator substitution. -/
def unixRules : OsPathRules :=
  { windows := false, sep := '/', is_relative := fun s => !(s.data.head? == some '/') }

/-- The `cfg(windows)` preprocessing in `to_absolute_path`:
`path_str.replace("/", "\\")` — on Windows replace every `/` character
by a backslash; elsewhere the string is untouched. -/
def subst_separators (os : OsPathRules) (s : String) : String :=
  if os.windows then String.mk (s.data.map fun c => if c == '/' then '\\' else c) else s

/-- `PathBuf::join` of a base directory with a relative path, rendered
back to a string by `to_string_lossy`: push a separator unless the base
is empty or already ends with one.  (Only ever applied to relative
right-hand sides in the code modelled here.) -/
def join_path (os : OsPathRules) (base rel : String) : String :=
  if base.isEmpty then rel
  else if base.data.getLast? == some os.sep then base ++ rel
  else base ++ String.mk [os.sep] ++ rel

/-- `PathRewrite`: the rewrite anchor directory and the dependency names
excluded from rewriting, plus the platform rules and the filesystem
existence oracle (`PathBuf::exists`, resolved against the process
working directory as in the source). -/
structure PathRewrite where
  os : OsPathRules
  exclude_deps : List String
  manifest_dir : String
  fs_exists : String → Bool

/-- `PathRewrite::to_absolute_path`: error when the value is not a
string; substitute separators on Windows, then, when the (substituted)
path is relative, replace the value by the anchor joined with it; an
absolute path leaves the stored value untouched. -/
def to_absolute_path (ctx : PathRewrite) (value_id : String) (existing_path : Value) :
    Except String Value :=
  match Value.as_str existing_path with
  | none => .error (value_id ++ " should be a string")
  | some path_str =>
    let path_str := subst_separators ctx.os path_str
    if ctx.os.is_relative path_str then
      .ok (.str (join_path ctx.os ctx.manifest_dir path_str))
    else
      .ok existing_path

/-- `PathRewrite::rewrite_path`: the section value must be a table; when
it has a `path` entry, rewrite it with `to_absolute_path`; when it does
not, check that the fixed default exists on disk (bailing out, with no
insertion, when it does not) and insert the anchor joined with the
default. -/
def rewrite_path (ctx : PathRewrite) (table_value : Value) (table_section : String)
    (default : String) : Except String Value :=
  match Value.as_table table_value with
  | none => .error ("'[" ++ table_section ++ "]' section should be a table")
  | some table =>
    match Table.get table "path" with
    | some existing_path =>
      match to_absolute_path ctx ("[" ++ table_section ++ "]/path") existing_path with
      | .error e => .error e
      | .ok p => .ok (.table (Table.insert table "path" p))
    | none =>
      if !(ctx.fs_exists default) then
        .error ("No path specified, and the default `" ++ default ++ "` was not found")
      else
        .ok (.table (Table.insert table "path"
          (.str (join_path ctx.os ctx.manifest_dir default))))

/-- The effective package name of a dependency entry: the string value
of an explicit `package` field when there is one, else the entry's key
(`package.and_then(as_str).unwrap_or(name)`). -/
def effective_package_name (name : String) (value : Value) : String :=
  (((Value.get value "package").bind Value.as_str)).getD name

/-- Body of the `for (name, value)` loop of
`rewrite_dependencies_relative_paths`: entries whose effective package
name is excluded, entries that are not tables, and table entries without
a `path` field are left untouched; otherwise the `path` field is passed
through `to_absolute_path`. -/
def rewrite_dep_entry (ctx : PathRewrite) (name : String) (value : Value) :
    Except String Value :=
  let package_name := effective_package_name name value
  if !(ctx.exclude_deps.contains package_name) then
    match Value.as_table value with
    | some dependency =>
      match Table.get dependency "path" with
      | some dep_path =>
        match to_absolute_path ctx ("dependency " ++ package_name) dep_path with
        | .error e => .error e
        | .ok p => .ok (.table (Table.insert dependency "path" p))
      | none => .ok value
    | none => .ok value
  else .ok value

/-- Run an effectful rewrite over every entry of a table in order,
stopping at the first error (the `?` inside the `for` loop). -/
def rewrite_entries (f : String → Value → Except String Value) :
    Table → Except String Table
  | [] => .ok []
  | (k, v) :: rest =>
    match f k v with
    | .error e => .error e
    | .ok v2 =>
      match rewrite_entries f rest with
      | .error e => .error e
      | .ok rest2 => .ok ((k, v2) :: rest2)

/-- `PathRewrite::rewrite_dependencies_relative_paths`: nothing to do
when the section is absent; the section value must be a table; every
entry is processed by the loop body `rewrite_dep_entry`. -/
def rewrite_dependencies_relative_paths (ctx : PathRewrite) (toml : Table)
    (section_name : String) : Except String Table :=
  match Table.get toml section_name with
  | none => .ok toml
  | some dependencies =>
    match Value.as_table dependencies with
    | none => .error "dependencies should be a table"
    | some table =>
      match rewrite_entries (rewrite_dep_entry ctx) table with
      | .error e => .error e
      | .ok table2 => .ok (Table.insert toml section_name (.table table2))

/-- `PathRewrite::rewrite_relative_paths`: the whole pass — `[lib]`
(default entry point `src/lib.rs`), each `[[bin]]` entry (default
`src/main.rs`), then the `dependencies` and `dev-dependencies`
sections. -/
def rewrite_relative_paths (ctx : PathRewrite) (toml : Table) : Except String Table :=
  let step1 : Except String Table :=
    match Table.get toml "lib" with
    | none => .ok toml
    | some lib =>
      match rewrite_path ctx lib "lib" "src/lib.rs" with
      | .error e => .error e
      | .ok lib2 => .ok (Table.insert toml "lib" lib2)
  match step1 with
  | .error e => .error e
  | .ok toml =>
    let step2 : Except String Table :=
      match Table.get toml "bin" with
      | none => .ok toml
      | some bin =>
        match bin with
        | .array bins =>
          match bins.mapM (fun b => rewrite_path ctx b "[bin]" "src/main.rs") with
          | .error e => .error e
          | .ok bins2 => .ok (Table.insert toml "bin" (.array bins2))
        | _ => .error "'[[bin]]' section should be a table array"
    match step2 with
    | .error e => .error e
    | .ok toml =>
      match rewrite_dependencies_relative_paths ctx toml "dependencies" with
      | .error e => .error e
      | .ok toml => rewrite_dependencies_relative_paths ctx toml "dev-dependencies"

/-! ## Basic lemmas about the table model -/

@[simp]
theorem Table.get_insert_self (t : Table) (k : String) (v : Value) :
    Table.get (Table.insert t k v) k = some v := by
  induction t with
  | nil => simp [Table.insert, Table.get]
  | cons hd tl ih =>
    obtain ⟨k0, v0⟩ := hd
    by_cases h : k0 = k
    · subst h
      simp [Table.insert, Table.get]
    · simp [Table.insert, Table.get, h, ih]

theorem Table.get_insert_ne (t : Table) (k k' : String) (v : Value) (h : k' ≠ k) :
    Table.get (Table.insert t k v) k' = Table.get t k' := by
  have h' : k ≠ k' := Ne.symm h
  induction t with
  | nil => simp [Table.insert, Table.get, h']
  | cons hd tl ih =>
    obtain ⟨k0, v0⟩ := hd
    by_cases h0 : k0 = k
    · subst h0
      simp [Table.insert, Table.get, h']
    · simp [Table.insert, Table.get, h0, ih]

theorem Table.insert_insert_self (t : Table) (k : String) (v w : Value) :
    Table.insert (Table.insert t k v) k w = Table.insert t k w := by
  induction t with
  | nil => simp [Table.insert]
  | cons hd tl ih =>
    obtain ⟨k0, v0⟩ := hd
    by_cases h : k0 = k
    · subst h
      simp [Table.insert]
    · simp [Table.insert, h, ih]

/-! ## Claim C3: rewrite rule for a single path value -/

/-- C3: for every stored path string processed by the rewrite pass via
`to_absolute_path`: when the string (after the platform's separator
substitution) denotes an absolute path, the stored value is left
byte-identical; when it denotes a relative path, the stored value
becomes the anchor directory joined with it; the separator substitution
is applied before the relative/absolute check, as witnessed by both
branch conditions being on the substituted string; concretely, anchor
`/home/u/proj` and value `src/lib.rs` yield
`/home/u/proj/src/lib.rs`. -/
theorem to_absolute_path_spec (ctx : PathRewrite) (value_id s : String) :
    (ctx.os.is_relative (subst_separators ctx.os s) = false →
      to_absolute_path ctx value_id (.str s) = .ok (.str s)) ∧
    (ctx.os.is_relative (subst_separators ctx.os s) = true →
      to_absolute_path ctx value_id (.str s) =
        .ok (.str (join_path ctx.os ctx.manifest_dir (subst_separators ctx.os s)))) ∧
    to_absolute_path ⟨unixRules, [], "/home/u/proj", fun _ => false⟩ "[lib]/path"
      (.str "src/lib.rs") = .ok (.str "/home/u/proj/src/lib.rs") := by
  refine ⟨?_, ?_, rfl⟩ <;> intro h <;> simp [to_absolute_path, Value.as_str, h]

/-- Witness for C3: on Unix rules, the already-absolute `/a/b` is left
untouched and the relative `src/lib.rs` is anchored. -/
theorem to_absolute_path_spec_witness :
    to_absolute_path ⟨unixRules, [], "/d", fun _ => false⟩ "[lib]/path" (.str "/a/b") =
      .ok (.str "/a/b") :=
  (to_absolute_path_spec ⟨unixRules, [], "/d", fun _ => false⟩ "[lib]/path" "/a/b").1 rfl

/-! ## Claim C9: default entry-point fallback for the library section -/

/-- C9: when the library section is a table without a `path` entry,
`rewrite_path` checks that the fixed default `src/lib.rs` exists: when
it does, the anchor joined with the default is inserted as the `path`
entry; when it does not, the call fails with the `NoDefaultPath` error
message and produces no rewritten table (hence no insertion). -/
theorem rewrite_path_default_fallback_spec (ctx : PathRewrite) (t : Table)
    (hpath : Table.get t "path" = none) :
    (ctx.fs_exists "src/lib.rs" = true →
      rewrite_path ctx (.table t) "lib" "src/lib.rs" =
        .ok (.table (Table.insert t "path"
          (.str (join_path ctx.os ctx.manifest_dir "src/lib.rs"))))) ∧
    (ctx.fs_exists "src/lib.rs" = false →
      rewrite_path ctx (.table t) "lib" "src/lib.rs" =
        .error "No path specified, and the default `src/lib.rs` was not found") := by
  constructor <;> intro h <;> simp [rewrite_path, Value.as_table, hpath, h]

/-- Witness for C9: with an absent default the rewrite fails, with a
present default it inserts the anchored path. -/
theorem rewrite_path_default_fallback_spec_witness :
    rewrite_path ⟨unixRules, [], "/d", fun _ => false⟩ (.table []) "lib" "src/lib.rs" =
      .error "No path specified, and the default `src/lib.rs` was not found" :=
  (rewrite_path_default_fallback_spec ⟨unixRules, [], "/d", fun _ => false⟩ [] rfl).2 rfl

/-! ## Claim C10: non-table dependency entries are skipped -/

/-- C10: during dependency path rewriting, an entry whose value is not a
table (e.g. a plain version-string dependency) is silently skipped and
never causes an error — with no assumption on the exclusion set — while
a section container that is itself not a table is an error. -/
theorem non_table_dependency_skipped (ctx : PathRewrite) (name : String) (v : Value)
    (hv : Value.as_table v = none) :
    rewrite_dep_entry ctx name v = .ok v ∧
    (∀ toml sec w, Table.get toml sec = some w → Value.as_table w = none →
      rewrite_dependencies_relative_paths ctx toml sec =
        .error "dependencies should be a table") := by
  constructor
  · unfold rewrite_dep_entry
    cases hc : ctx.exclude_deps.contains (effective_package_name name v) <;> simp [hv, hc]
  · intro toml sec w hw hwt
    simp [rewrite_dependencies_relative_paths, hw, hwt]

/-- Witness for C10: the version-string dependency `serde = "1.0"` is
passed through untouched even though `serde` is not excluded. -/
theorem non_table_dependency_skipped_witness :
    rewrite_dep_entry ⟨unixRules, [], "/d", fun _ => false⟩ "serde" (.str "1.0") =
      .ok (.str "1.0") :=
  (non_table_dependency_skipped ⟨unixRules, [], "/d", fun _ => false⟩ "serde"
    (.str "1.0") rfl).1

/-! ## Claim C4: dependency rewrite honours the exclusion set -/

/-- C4: in the rewrite of a dependency (or dev-dependency) section, an
entry's `path` field is passed through the path rewrite exactly when the
entry's effective package name (the string value of an explicit
`package` field when present, else the entry's key) is not in the
exclusion set and the entry is a table with a `path` field; excluded
entries and entries without a `path` field are left untouched; and the
section rewrite is exactly the entry-wise rewrite of the section's
table. -/
theorem dependency_rewrite_exclusion_spec (ctx : PathRewrite) (name : String) (v : Value) :
    (ctx.exclude_deps.contains (effective_package_name name v) = true →
      rewrite_dep_entry ctx name v = .ok v) ∧
    (∀ d, v = .table d → Table.get d "path" = none → rewrite_dep_entry ctx name v = .ok v) ∧
    (∀ d p, ctx.exclude_deps.contains (effective_package_name name v) = false →
      v = .table d → Table.get d "path" = some p →
      rewrite_dep_entry ctx name v =
        (to_absolute_path ctx ("dependency " ++ effective_package_name name v) p).map
          (fun p2 => .table (Table.insert d "path" p2))) ∧
    (∀ toml sec deps, Table.get toml sec = some (.table deps) →
      rewrite_dependencies_relative_paths ctx toml sec =
        (rewrite_entries (rewrite_dep_entry ctx) deps).map
          (fun ds => Table.insert toml sec (.table ds))) := by
  refine ⟨?_, ?_, ?_, ?_⟩
  · intro h
    have h' : effective_package_name name v ∈ ctx.exclude_deps := by simpa using h
    simp [rewrite_dep_entry, h']
  · rintro d rfl hp
    cases hc : ctx.exclude_deps.contains (effective_package_name name (.table d)) <;>
      simp [rewrite_dep_entry, Value.as_table, hp, hc]
  · rintro d p hc rfl hp
    have h' : effective_package_name name (Value.table d) ∉ ctx.exclude_deps := by
      simpa using hc
    cases habs : to_absolute_path ctx ("dependency " ++
        effective_package_name name (.table d)) p <;>
      simp [rewrite_dep_entry, Value.as_table, hp, h', habs, Except.map]
  · intro toml sec deps hdeps
    cases hrw : rewrite_entries (rewrite_dep_entry ctx) deps <;>
      simp [rewrite_dependencies_relative_paths, hdeps, Value.as_table, hrw, Except.map]

/-- Witness for C4: with exclusion set `{foo}`, the entry for `foo`
keeps its relative path while the sibling `bar` is anchored. -/
theorem dependency_rewrite_exclusion_spec_witness :
    rewrite_dep_entry ⟨unixRules, ["foo"], "/home/u/proj", fun _ => false⟩ "foo"
        (.table [("path", .str "../foo")]) = .ok (.table [("path", .str "../foo")]) ∧
    rewrite_dep_entry ⟨unixRules, ["foo"], "/home/u/proj", fun _ => false⟩ "bar"
        (.table [("path", .str "../bar")]) =
      .ok (.table [("path", .str "/home/u/proj/../bar")]) :=
  ⟨(dependency_rewrite_exclusion_spec ⟨unixRules, ["foo"], "/home/u/proj", fun _ => false⟩
      "foo" (.table [("path", .str "../foo")])).1 rfl,
   ((dependency_rewrite_exclusion_spec ⟨unixRules, ["foo"], "/home/u/proj", fun _ => false⟩
      "bar" (.table [("path", .str "../bar")])).2.2.1 [("path", .str "../bar")]
      (.str "../bar") rfl rfl rfl).trans rfl⟩

theorem Table.insert_get_self (t : Table) (k : String) (v : Value)
    (h : Table.get t k = some v) : Table.insert t k v = t := by
  induction t with
  | nil => simp [Table.get] at h
  | cons hd tl ih =>
    obtain ⟨k0, v0⟩ := hd
    by_cases h0 : k0 = k
    · subst h0
      simp [Table.get] at h
      simp [Table.insert, h]
    · simp [Table.get, h0] at h
      simp [Table.insert, h0, ih h]

/-! ## Workspace membership injection (claims C1 and C2) -/

/-- Characterization of a successful `with_metadata_package` call: the
workspace table and members array (possibly freshly created) are found,
the new metadata path is appended exactly when the legacy path is not
already a member, and the flag is set. -/
theorem with_metadata_package_ok_iff (m m' : Manifest) :
    with_metadata_package m = .ok m' ↔
    ∃ wt ms, (Table.get m.toml "workspace").getD (.table []) = .table wt ∧
      (Table.get wt "members").getD (.array []) = .array ms ∧
      m' = ⟨Table.insert m.toml "workspace" (.table (Table.insert wt "members" (.array
        (if ms.any (fun v => value_eq_str v LEGACY_METADATA_PACKAGE_PATH) then ms
         else ms ++ [Value.str METADATA_PACKAGE_PATH])))), true⟩ := by
  constructor
  · intro h
    unfold with_metadata_package at h
    cases hw : (Table.get m.toml "workspace").getD (.table []) <;> rw [hw] at h <;>
      try simp at h
    case table wt =>
    cases hm : (Table.get wt "members").getD (.array []) <;> rw [hm] at h <;>
      try simp at h
    case array ms =>
    exact ⟨wt, ms, rfl, hm, by simpa using h.symm⟩
  · rintro ⟨wt, ms, hw, hm, rfl⟩
    simp only [with_metadata_package, hw, hm]

/-- C2: a single `with_metadata_package` call on any document (here the
workspace table and members array are read exactly as the code does,
with empty defaults for absent sections): when the legacy path is
already a member the members list is returned unchanged in length and
content; when it is absent, the list grows by exactly the fixed new
path; the `metadata_package` flag is true in both cases. -/
theorem with_metadata_package_single_call_spec (m : Manifest) (wt : Table) (ms : List Value)
    (hw : (Table.get m.toml "workspace").getD (.table []) = .table wt)
    (hm : (Table.get wt "members").getD (.array []) = .array ms) :
    ∃ m2, with_metadata_package m = .ok m2 ∧ m2.metadata_package = true ∧
      workspace_members m2.toml =
        some (if ms.any (fun v => value_eq_str v LEGACY_METADATA_PACKAGE_PATH) then ms
              else ms ++ [Value.str METADATA_PACKAGE_PATH]) ∧
      (ms.any (fun v => value_eq_str v LEGACY_METADATA_PACKAGE_PATH) = true →
        (workspace_members m2.toml).map List.length = some ms.length) ∧
      (ms.any (fun v => value_eq_str v LEGACY_METADATA_PACKAGE_PATH) = false →
        (workspace_members m2.toml).map List.length = some (ms.length + 1)) := by
  refine ⟨_, (with_metadata_package_ok_iff m _).mpr ⟨wt, ms, hw, hm, rfl⟩, rfl, ?_, ?_, ?_⟩
  · simp [workspace_members, Table.get_insert_self]
  · intro h
    simp [workspace_members, Table.get_insert_self, h]
  · intro h
    simp [workspace_members, Table.get_insert_self, h]

/-- Witness for C2: on a document whose members list holds the legacy
path, the call leaves the list unchanged and sets the flag. -/
theorem with_metadata_package_single_call_spec_witness :
    ∃ m2, with_metadata_package
        ⟨[("workspace", .table [("members", .array [.str ".ink/abi_gen"])])], false⟩ =
        .ok m2 ∧ m2.metadata_package = true ∧
      workspace_members m2.toml =
        some (if [Value.str ".ink/abi_gen"].any
                (fun v => value_eq_str v LEGACY_METADATA_PACKAGE_PATH)
              then [Value.str ".ink/abi_gen"]
              else [Value.str ".ink/abi_gen"] ++ [Value.str METADATA_PACKAGE_PATH]) ∧
      ([Value.str ".ink/abi_gen"].any
          (fun v => value_eq_str v LEGACY_METADATA_PACKAGE_PATH) = true →
        (workspace_members m2.toml).map List.length = some [Value.str ".ink/abi_gen"].length) ∧
      ([Value.str ".ink/abi_gen"].any
          (fun v => value_eq_str v LEGACY_METADATA_PACKAGE_PATH) = false →
        (workspace_members m2.toml).map List.length =
          some ([Value.str ".ink/abi_gen"].length + 1)) :=
  with_metadata_package_single_call_spec
    ⟨[("workspace", .table [("members", .array [.str ".ink/abi_gen"])])], false⟩
    [("members", .array [.str ".ink/abi_gen"])] [.str ".ink/abi_gen"] rfl rfl

/-- C1 counterexample: on the empty document, one call registers the
new path once, a second call appends it again, so the members list
after two calls (length 2) differs from the list a single call
produces (length 1) — `with_metadata_package` is not idempotent. -/
theorem with_metadata_package_twice_duplicates :
    with_metadata_package ⟨[], false⟩ =
      .ok ⟨[("workspace", .table [("members", .array [.str METADATA_PACKAGE_PATH])])], true⟩ ∧
    (with_metadata_package ⟨[], false⟩).bind with_metadata_package =
      .ok ⟨[("workspace", .table [("members",
        .array [.str METADATA_PACKAGE_PATH, .str METADATA_PACKAGE_PATH])])], true⟩ ∧
    (workspace_members [("workspace", .table [("members",
        .array [.str METADATA_PACKAGE_PATH, .str METADATA_PACKAGE_PATH])])]).map List.length ≠
      (workspace_members [("workspace", .table [("members",
        .array [.str METADATA_PACKAGE_PATH])])]).map List.length := by
  refine ⟨rfl, rfl, ?_⟩
  decide

/-- C1 amended: a second `with_metadata_package` call after a
successful first one succeeds and treats the first call's members list
like any other: it appends the fixed new path once more whenever the
legacy path is absent from that list, and leaves the list unchanged
when the legacy path is present.  (Repeated application is therefore
idempotent only in the legacy-path case.) -/
theorem with_metadata_package_repeat_appends_again (m m1 : Manifest)
    (h : with_metadata_package m = .ok m1) :
    ∃ ms1 m2, workspace_members m1.toml = some ms1 ∧
      with_metadata_package m1 = .ok m2 ∧
      workspace_members m2.toml =
        some (if ms1.any (fun v => value_eq_str v LEGACY_METADATA_PACKAGE_PATH) then ms1
              else ms1 ++ [Value.str METADATA_PACKAGE_PATH]) := by
  obtain ⟨wt, ms, hw, hm, rfl⟩ := (with_metadata_package_ok_iff m m1).mp h
  set ms1 := (if ms.any (fun v => value_eq_str v LEGACY_METADATA_PACKAGE_PATH) then ms
              else ms ++ [Value.str METADATA_PACKAGE_PATH]) with hms1
  have h2 := (with_metadata_package_ok_iff
      ⟨Table.insert m.toml "workspace"
        (Value.table (Table.insert wt "members" (Value.array ms1))), true⟩ _).mpr
    ⟨Table.insert wt "members" (Value.array ms1), ms1,
      by simp [Table.get_insert_self], by simp [Table.get_insert_self], rfl⟩
  refine ⟨ms1, _, ?_, h2, ?_⟩
  · simp [workspace_members, Table.get_insert_self]
  · simp [workspace_members, Table.get_insert_self]

/-! ## Output-kind add and remove (claims C6 and C7) -/

/-- Characterization of a successful `get_crate_types` read: the `lib`
section is a table with a `crate-type` array. -/
theorem get_crate_types_ok_iff (toml : Table) (cts : List Value) :
    get_crate_types toml = .ok cts ↔
    ∃ lt, Table.get toml "lib" = some (.table lt) ∧
      Table.get lt "crate-type" = some (.array cts) := by
  constructor
  · intro h
    unfold get_crate_types at h
    cases hlib : Table.get toml "lib" with
    | none => rw [hlib] at h; simp at h
    | some lib =>
      rw [hlib] at h
      cases lib with
      | table lt =>
        simp only [Value.get] at h
        cases hct : Table.get lt "crate-type" with
        | none => rw [hct] at h; simp at h
        | some ct =>
          rw [hct] at h
          cases ct with
          | array a =>
            simp only [Except.ok.injEq] at h
            subst h
            exact ⟨lt, rfl, hct⟩
          | str s => simp at h
          | bool b => simp at h
          | int i => simp at h
          | table t2 => simp at h
      | str s => simp [Value.get] at h
      | bool b => simp [Value.get] at h
      | int i => simp [Value.get] at h
      | array a => simp [Value.get] at h
  · rintro ⟨lt, hl, hc⟩
    simp [get_crate_types, hl, Value.get, hc]

/-- `set_crate_types` under the shape guaranteed by a successful
read. -/
theorem set_crate_types_eq (toml lt : Table) (cts : List Value)
    (hl : Table.get toml "lib" = some (.table lt)) :
    set_crate_types toml cts =
      Table.insert toml "lib" (.table (Table.insert lt "crate-type" (.array cts))) := by
  simp [set_crate_types, hl]

/-- Appending the searched-for kind makes `crate_type_exists` true. -/
theorem crate_type_exists_append_self (ct : String) (cts : List Value) :
    crate_type_exists ct (cts ++ [Value.str ct]) = true := by
  simp [crate_type_exists, Value.as_str]

/-- After filtering out every string equal to `ct` (the `retain` of
`with_removed_crate_type`), no occurrence of `ct` remains. -/
theorem crate_type_exists_filter_removed (ct : String) (cts : List Value) :
    crate_type_exists ct (cts.filter fun v =>
      ((Value.as_str v).map (fun s => s != ct)).getD true) = false := by
  induction cts with
  | nil => rfl
  | cons v tl ih =>
    cases v with
    | str s =>
      by_cases hs : s = ct
      · subst hs
        simpa [Value.as_str, crate_type_exists] using ih
      · simpa [Value.as_str, crate_type_exists, hs] using ih
    | bool b => simpa [Value.as_str, crate_type_exists] using ih
    | int i => simpa [Value.as_str, crate_type_exists] using ih
    | array a => simpa [Value.as_str, crate_type_exists] using ih
    | table t => simpa [Value.as_str, crate_type_exists] using ih

/-- C6: `with_added_crate_type` is idempotent — whenever a first call
succeeds, applying it again to the result succeeds and returns the
document (and hence the output-kind list) unchanged. -/
theorem with_added_crate_type_idempotent (toml t' : Table) (ct : String)
    (h : with_added_crate_type toml ct = .ok t') :
    with_added_crate_type t' ct = .ok t' := by
  unfold with_added_crate_type at h
  cases hg : get_crate_types toml with
  | error e => rw [hg] at h; simp at h
  | ok cts =>
    rw [hg] at h
    obtain ⟨lt, hl, hc⟩ := (get_crate_types_ok_iff toml cts).mp hg
    cases hex : crate_type_exists ct cts with
    | true =>
      simp only [hex, if_true] at h
      have ht : toml = t' := by simpa using h
      subst ht
      simp [with_added_crate_type, hg, hex]
    | false =>
      simp only [hex, Bool.false_eq_true, if_false] at h
      have ht : set_crate_types toml (cts ++ [Value.str ct]) = t' := by simpa using h
      subst ht
      have hg2 : get_crate_types (set_crate_types toml (cts ++ [Value.str ct])) =
          .ok (cts ++ [Value.str ct]) := by
        rw [set_crate_types_eq toml lt _ hl]
        exact (get_crate_types_ok_iff _ _).mpr
          ⟨Table.insert lt "crate-type" (.array (cts ++ [Value.str ct])),
            by simp [Table.get_insert_self], by simp [Table.get_insert_self]⟩
      simp [with_added_crate_type, hg2, crate_type_exists_append_self]

/-- Witness for C6: adding `abi` a second time to a document that just
received it changes nothing. -/
theorem with_added_crate_type_idempotent_witness :
    with_added_crate_type [("lib", .table [("crate-type", .array [.str "abi"])])] "abi" =
      .ok [("lib", .table [("crate-type", .array [.str "abi"])])] :=
  with_added_crate_type_idempotent [("lib", .table [("crate-type", .array [])])]
    [("lib", .table [("crate-type", .array [.str "abi"])])] "abi" rfl

/-- C7: on a document with a library output-kind list,
`with_removed_crate_type` is a no-op when the kind is absent, and when
the kind is present it removes every occurrence, however many
duplicates the list contained, so that none remain. -/
theorem with_removed_crate_type_spec (toml : Table) (cts : List Value) (ct : String)
    (h : get_crate_types toml = .ok cts) :
    (crate_type_exists ct cts = false → with_removed_crate_type toml ct = .ok toml) ∧
    (crate_type_exists ct cts = true →
      ∃ t', with_removed_crate_type toml ct = .ok t' ∧
        lib_crate_types t' = some (cts.filter fun v =>
          ((Value.as_str v).map (fun s => s != ct)).getD true) ∧
        crate_type_exists ct (cts.filter fun v =>
          ((Value.as_str v).map (fun s => s != ct)).getD true) = false) := by
  obtain ⟨lt, hl, hc⟩ := (get_crate_types_ok_iff toml cts).mp h
  constructor
  · intro hex
    simp [with_removed_crate_type, h, hex]
  · intro hex
    refine ⟨set_crate_types toml (cts.filter fun v =>
      ((Value.as_str v).map (fun s => s != ct)).getD true), ?_, ?_, ?_⟩
    · simp [with_removed_crate_type, h, hex]
    · rw [set_crate_types_eq toml lt _ hl]
      simp [lib_crate_types, Table.get_insert_self]
    · exact crate_type_exists_filter_removed ct cts

/-- Witness for C7: removing `rlib` from a list holding two copies of
it (plus a non-string element) removes both and keeps the rest. -/
theorem with_removed_crate_type_spec_witness :
    ∃ t', with_removed_crate_type
        [("lib", .table [("crate-type",
          .array [.str "rlib", .str "cdylib", .int 3, .str "rlib"])])] "rlib" = .ok t' ∧
      lib_crate_types t' =
        some ([Value.str "rlib", Value.str "cdylib", Value.int 3,
          Value.str "rlib"].filter fun v =>
            ((Value.as_str v).map (fun s => s != "rlib")).getD true) ∧
      crate_type_exists "rlib"
        ([Value.str "rlib", Value.str "cdylib", Value.int 3,
          Value.str "rlib"].filter fun v =>
            ((Value.as_str v).map (fun s => s != "rlib")).getD true) = false :=
  (with_removed_crate_type_spec
    [("lib", .table [("crate-type",
      .array [.str "rlib", .str "cdylib", .int 3, .str "rlib"])])]
    [.str "rlib", .str "cdylib", .int 3, .str "rlib"] "rlib" rfl).2 rfl

/-! ## Release-profile defaults (claim C5) -/

/-- Characterization of a successful `set_profile_release` call. -/
theorem set_profile_release_ok_iff (toml t' : Table) (f : Table → Table) :
    set_profile_release toml f = .ok t' ↔
    ∃ pt rt, (Table.get toml "profile").getD (.table []) = .table pt ∧
      (Table.get pt "release").getD (.table []) = .table rt ∧
      t' = Table.insert toml "profile"
        (.table (Table.insert pt "release" (.table (f rt)))) := by
  constructor
  · intro h
    unfold set_profile_release at h
    cases hp : (Table.get toml "profile").getD (.table []) <;> rw [hp] at h <;>
      try simp at h
    case table pt =>
    cases hr : (Table.get pt "release").getD (.table []) <;> rw [hr] at h <;>
      try simp at h
    case table rt =>
    exact ⟨pt, rt, rfl, hr, by simpa using h.symm⟩
  · rintro ⟨pt, rt, hp, hr, rfl⟩
    simp only [set_profile_release, hp, hr]

/-- Lookup in a merged profile table: an existing entry of `t` wins;
for a key absent from `t`, the first matching default (if any) is
found. -/
theorem Profile.merge_get (defaults : List (String × Value)) (t : Table) (k : String) :
    Table.get (Profile.merge defaults t) k =
      match Table.get t k with
      | some v => some v
      | none => (defaults.find? fun kv => kv.1 == k).map Prod.snd := by
  induction defaults generalizing t with
  | nil => cases h : Table.get t k <;> simp [Profile.merge, h]
  | cons d ds ih =>
    obtain ⟨dk, dv⟩ := d
    rw [show Profile.merge ((dk, dv) :: ds) t =
      Profile.merge ds (if (Table.get t dk).isSome then t else Table.insert t dk dv)
      from rfl, ih]
    by_cases hk : dk = k
    · subst hk
      cases hg : Table.get t dk with
      | some v => simp [hg, List.find?]
      | none => simp [hg, Table.get_insert_self, List.find?]
    · have hne : k ≠ dk := fun hh => hk hh.symm
      have hbeq : (dk == k) = false := by simp [hk]
      cases hdk : Table.get t dk <;>
        cases hg : Table.get t k <;>
          simp [hdk, hg, List.find?, hbeq, Table.get_insert_ne t dk k dv hne]

/-- C5: `with_profile_release_defaults` inserts each default key only
when it is absent from the release-profile table and never replaces an
existing value: every pre-existing entry survives untouched, an absent
key receives (the first matching) default, and concretely an existing
`opt-level = "s"` survives `{opt-level: "z", lto: true}` while `lto`
is set. -/
theorem with_profile_release_defaults_merge_spec (toml pt rt : Table)
    (defaults : List (String × Value))
    (hp : (Table.get toml "profile").getD (.table []) = .table pt)
    (hr : (Table.get pt "release").getD (.table []) = .table rt) :
    (∃ t', with_profile_release_defaults toml defaults = .ok t' ∧
      profile_release t' = some (Profile.merge defaults rt) ∧
      (∀ k v, Table.get rt k = some v → Table.get (Profile.merge defaults rt) k = some v) ∧
      (∀ k, Table.get rt k = none →
        Table.get (Profile.merge defaults rt) k =
          (defaults.find? fun kv => kv.1 == k).map Prod.snd)) ∧
    with_profile_release_defaults
        [("profile", .table [("release", .table [("opt-level", .str "s")])])]
        [("opt-level", .str "z"), ("lto", .bool true)] =
      .ok [("profile", .table [("release", .table
        [("opt-level", .str "s"), ("lto", .bool true)])])] := by
  constructor
  · refine ⟨_, (set_profile_release_ok_iff toml _ _).mpr ⟨pt, rt, hp, hr, rfl⟩, ?_, ?_, ?_⟩
    · simp [profile_release, Table.get_insert_self]
    · intro k v hv
      rw [Profile.merge_get]
      simp [hv]
    · intro k hv
      rw [Profile.merge_get]
      simp [hv]
  · rfl

/-- Witness for C5: the claim's concrete merge-not-overwrite example. -/
theorem with_profile_release_defaults_merge_spec_witness :
    with_profile_release_defaults
        [("profile", .table [("release", .table [("opt-level", .str "s")])])]
        [("opt-level", .str "z"), ("lto", .bool true)] =
      .ok [("profile", .table [("release", .table
        [("opt-level", .str "s"), ("lto", .bool true)])])] :=
  (with_profile_release_defaults_merge_spec
    [("profile", .table [("release", .table [("opt-level", .str "s")])])]
    [("release", .table [("opt-level", .str "s")])] [("opt-level", .str "s")]
    [("opt-level", .str "z"), ("lto", .bool true)] rfl rfl).2

/-! ## Frame conditions of the mutation operations (claim C8) -/

/-- Characterization of a successful `with_dylint` call. -/
theorem with_dylint_ok_iff (toml t' : Table) :
    with_dylint toml = .ok t' ↔
    ∃ wt mt dt libs, (Table.get toml "workspace").getD (.table []) = .table wt ∧
      (Table.get wt "metadata").getD (.table []) = .table mt ∧
      (Table.get mt "dylint").getD (.table []) = .table dt ∧
      (Table.get dt "libraries").getD (.array []) = .array libs ∧
      t' = Table.insert toml "workspace" (.table (Table.insert wt "metadata"
        (.table (Table.insert mt "dylint" (.table (Table.insert dt "libraries"
          (.array (libs ++ [ink_dylint_descriptor])))))))) := by
  constructor
  · intro h
    unfold with_dylint at h
    cases hw : (Table.get toml "workspace").getD (.table []) <;> rw [hw] at h <;>
      try simp at h
    case table wt =>
    cases hm : (Table.get wt "metadata").getD (.table []) <;> rw [hm] at h <;>
      try simp at h
    case table mt =>
    cases hd : (Table.get mt "dylint").getD (.table []) <;> rw [hd] at h <;>
      try simp at h
    case table dt =>
    cases hl : (Table.get dt "libraries").getD (.array []) <;> rw [hl] at h <;>
      try simp at h
    case array libs =>
    exact ⟨wt, mt, dt, libs, rfl, hm, hd, hl, by simpa using h.symm⟩
  · rintro ⟨wt, mt, dt, libs, hw, hm, hd, hl, rfl⟩
    simp only [with_dylint, hw, hm, hd, hl]

/-- C8: each mutation operation preserves the document outside the
sub-tree it targets: `with_added_crate_type` and
`with_removed_crate_type` change no top-level key other than `lib` and,
inside `lib`, no key other than `crate-type`;
`with_profile_release_lto` and `with_profile_release_defaults` change
no top-level key other than `profile` and, inside `profile`, no key
other than `release`; `with_workspace` changes no top-level key other
than `workspace`; `with_metadata_package` changes no top-level key
other than `workspace` and, inside `workspace`, no key other than
`members`; `with_dylint` changes no top-level key other than
`workspace` and, inside `workspace`, no key other than `metadata`. -/
theorem mutation_frame_spec :
    (∀ toml ct t', with_added_crate_type toml ct = .ok t' →
      (∀ k, k ≠ "lib" → Table.get t' k = Table.get toml k) ∧
      (∀ lt, Table.get toml "lib" = some (.table lt) →
        ∃ lt', Table.get t' "lib" = some (.table lt') ∧
          ∀ k2, k2 ≠ "crate-type" → Table.get lt' k2 = Table.get lt k2)) ∧
    (∀ toml ct t', with_removed_crate_type toml ct = .ok t' →
      (∀ k, k ≠ "lib" → Table.get t' k = Table.get toml k) ∧
      (∀ lt, Table.get toml "lib" = some (.table lt) →
        ∃ lt', Table.get t' "lib" = some (.table lt') ∧
          ∀ k2, k2 ≠ "crate-type" → Table.get lt' k2 = Table.get lt k2)) ∧
    (∀ toml enabled t', with_profile_release_lto toml enabled = .ok t' →
      (∀ k, k ≠ "profile" → Table.get t' k = Table.get toml k) ∧
      (∀ pt, Table.get toml "profile" = some (.table pt) →
        ∃ pt', Table.get t' "profile" = some (.table pt') ∧
          ∀ k2, k2 ≠ "release" → Table.get pt' k2 = Table.get pt k2)) ∧
    (∀ toml defaults t', with_profile_release_defaults toml defaults = .ok t' →
      (∀ k, k ≠ "profile" → Table.get t' k = Table.get toml k) ∧
      (∀ pt, Table.get toml "profile" = some (.table pt) →
        ∃ pt', Table.get t' "profile" = some (.table pt') ∧
          ∀ k2, k2 ≠ "release" → Table.get pt' k2 = Table.get pt k2)) ∧
    (∀ toml t', with_workspace toml = .ok t' →
      ∀ k, k ≠ "workspace" → Table.get t' k = Table.get toml k) ∧
    (∀ m m', with_metadata_package m = .ok m' →
      (∀ k, k ≠ "workspace" → Table.get m'.toml k = Table.get m.toml k) ∧
      (∀ wt, Table.get m.toml "workspace" = some (.table wt) →
        ∃ wt', Table.get m'.toml "workspace" = some (.table wt') ∧
          ∀ k2, k2 ≠ "members" → Table.get wt' k2 = Table.get wt k2)) ∧
    (∀ toml t', with_dylint toml = .ok t' →
      (∀ k, k ≠ "workspace" → Table.get t' k = Table.get toml k) ∧
      (∀ wt, Table.get toml "workspace" = some (.table wt) →
        ∃ wt', Table.get t' "workspace" = some (.table wt') ∧
          ∀ k2, k2 ≠ "metadata" → Table.get wt' k2 = Table.get wt k2)) := by
  refine ⟨?_, ?_, ?_, ?_, ?_, ?_, ?_⟩
  · intro toml ct t' h
    unfold with_added_crate_type at h
    cases hg : get_crate_types toml with
    | error e => rw [hg] at h; simp at h
    | ok cts =>
      rw [hg] at h
      obtain ⟨lt0, hl, hc⟩ := (get_crate_types_ok_iff toml cts).mp hg
      cases hex : crate_type_exists ct cts with
      | true =>
        simp only [hex, if_true] at h
        have ht : toml = t' := by simpa using h
        subst ht
        exact ⟨fun k _ => rfl, fun lt hlt => ⟨lt, hlt, fun k2 _ => rfl⟩⟩
      | false =>
        simp only [hex, Bool.false_eq_true, if_false] at h
        have ht : set_crate_types toml (cts ++ [Value.str ct]) = t' := by simpa using h
        rw [set_crate_types_eq toml lt0 _ hl] at ht
        subst ht
        constructor
        · intro k hk
          exact Table.get_insert_ne toml "lib" k _ hk
        · intro lt hlt
          rw [hl] at hlt
          obtain rfl : lt0 = lt := by simpa using hlt
          exact ⟨Table.insert lt0 "crate-type" (.array (cts ++ [Value.str ct])),
            by simp [Table.get_insert_self],
            fun k2 hk2 => Table.get_insert_ne lt0 "crate-type" k2 _ hk2⟩
  · intro toml ct t' h
    unfold with_removed_crate_type at h
    cases hg : get_crate_types toml with
    | error e => rw [hg] at h; simp at h
    | ok cts =>
      rw [hg] at h
      obtain ⟨lt0, hl, hc⟩ := (get_crate_types_ok_iff toml cts).mp hg
      cases hex : crate_type_exists ct cts with
      | false =>
        simp only [hex, Bool.false_eq_true, if_false] at h
        have ht : toml = t' := by simpa using h
        subst ht
        exact ⟨fun k _ => rfl, fun lt hlt => ⟨lt, hlt, fun k2 _ => rfl⟩⟩
      | true =>
        simp only [hex, if_true] at h
        have ht : set_crate_types toml (cts.filter fun v =>
            ((Value.as_str v).map (fun s => s != ct)).getD true) = t' := by simpa using h
        rw [set_crate_types_eq toml lt0 _ hl] at ht
        subst ht
        constructor
        · intro k hk
          exact Table.get_insert_ne toml "lib" k _ hk
        · intro lt hlt
          rw [hl] at hlt
          obtain rfl : lt0 = lt := by simpa using hlt
          exact ⟨Table.insert lt0 "crate-type" (.array (cts.filter fun v =>
              ((Value.as_str v).map (fun s => s != ct)).getD true)),
            by simp [Table.get_insert_self],
            fun k2 hk2 => Table.get_insert_ne lt0 "crate-type" k2 _ hk2⟩
  · intro toml enabled t' h
    obtain ⟨pt, rt, hp, hr, rfl⟩ := (set_profile_release_ok_iff toml t' _).mp h
    constructor
    · intro k hk
      exact Table.get_insert_ne toml "profile" k _ hk
    · intro pt0 hpt0
      rw [hpt0] at hp
      obtain rfl : pt0 = pt := by simpa using hp
      exact ⟨Table.insert pt0 "release" (.table (Table.insert rt "lto" (.bool enabled))),
        by simp [Table.get_insert_self],
        fun k2 hk2 => Table.get_insert_ne pt0 "release" k2 _ hk2⟩
  · intro toml defaults t' h
    obtain ⟨pt, rt, hp, hr, rfl⟩ := (set_profile_release_ok_iff toml t' _).mp h
    constructor
    · intro k hk
      exact Table.get_insert_ne toml "profile" k _ hk
    · intro pt0 hpt0
      rw [hpt0] at hp
      obtain rfl : pt0 = pt := by simpa using hp
      exact ⟨Table.insert pt0 "release" (.table (Profile.merge defaults rt)),
        by simp [Table.get_insert_self],
        fun k2 hk2 => Table.get_insert_ne pt0 "release" k2 _ hk2⟩
  · intro toml t' h
    unfold with_workspace at h
    cases hws : (Table.get toml "workspace").isSome with
    | true =>
      rw [hws] at h
      simp only [if_true] at h
      have ht : toml = t' := by simpa using h
      subst ht
      exact fun k _ => rfl
    | false =>
      rw [hws] at h
      simp only [Bool.false_eq_true, if_false] at h
      have ht : Table.insert toml "workspace" (.table []) = t' := by simpa using h
      subst ht
      exact fun k hk => Table.get_insert_ne toml "workspace" k _ hk
  · intro m m' h
    obtain ⟨wt, ms, hw, hm, rfl⟩ := (with_metadata_package_ok_iff m m').mp h
    constructor
    · intro k hk
      exact Table.get_insert_ne m.toml "workspace" k _ hk
    · intro wt0 hwt0
      rw [hwt0] at hw
      obtain rfl : wt0 = wt := by simpa using hw
      exact ⟨Table.insert wt0 "members" (.array
          (if ms.any (fun v => value_eq_str v LEGACY_METADATA_PACKAGE_PATH) then ms
           else ms ++ [Value.str METADATA_PACKAGE_PATH])),
        by simp [Table.get_insert_self],
        fun k2 hk2 => Table.get_insert_ne wt0 "members" k2 _ hk2⟩
  · intro toml t' h
    obtain ⟨wt, mt, dt, libs, hw, hm, hd, hl, rfl⟩ := (with_dylint_ok_iff toml t').mp h
    constructor
    · intro k hk
      exact Table.get_insert_ne toml "workspace" k _ hk
    · intro wt0 hwt0
      rw [hwt0] at hw
      obtain rfl : wt0 = wt := by simpa using hw
      exact ⟨Table.insert wt0 "metadata" (.table (Table.insert mt "dylint"
          (.table (Table.insert dt "libraries"
            (.array (libs ++ [ink_dylint_descriptor])))))),
        by simp [Table.get_insert_self],
        fun k2 hk2 => Table.get_insert_ne wt0 "metadata" k2 _ hk2⟩

/-- Witness for C8: adding a crate type leaves the `package` key of a
concrete document unchanged. -/
theorem mutation_frame_spec_witness :
    Table.get [("package", .str "p"),
        ("lib", .table [("crate-type", .array [.str "abi"]), ("name", .str "n")])] "package" =
      Table.get [("package", .str "p"),
        ("lib", .table [("crate-type", .array []), ("name", .str "n")])] "package" :=
  (mutation_frame_spec.1
    [("package", .str "p"), ("lib", .table [("crate-type", .array []), ("name", .str "n")])]
    "abi"
    [("package", .str "p"),
      ("lib", .table [("crate-type", .array [.str "abi"]), ("name", .str "n")])]
    rfl).1 "package" (by decide)

/-- Witness for C1's amended theorem: instantiated at the empty
document, whose first call produces the singleton members list. -/
theorem with_metadata_package_repeat_appends_again_witness :
    ∃ ms1 m2, workspace_members
        (Manifest.toml ⟨[("workspace", .table [("members",
          .array [.str METADATA_PACKAGE_PATH])])], true⟩) = some ms1 ∧
      with_metadata_package ⟨[("workspace", .table [("members",
        .array [.str METADATA_PACKAGE_PATH])])], true⟩ = .ok m2 ∧
      workspace_members m2.toml =
        some (if ms1.any (fun v => value_eq_str v LEGACY_METADATA_PACKAGE_PATH) then ms1
              else ms1 ++ [Value.str METADATA_PACKAGE_PATH]) :=
  with_metadata_package_repeat_appends_again ⟨[], false⟩
    ⟨[("workspace", .table [("members", .array [.str METADATA_PACKAGE_PATH])])], true⟩ rfl

end ManifestSpec
